import Mathlib

/-!
Verification of the numerical core of `experiment/models/common.py`:
the vine-method random correlation matrix generator `rand_corr_vine`
and the input-parameter calibration routines `calc_input_param_lin_reg`
and `calc_input_param_classification`.

Modelling conventions.  Floating point arithmetic is modelled by real
numbers.  A numpy array is modelled by the type `Arr` below: a scalar,
a vector with an explicit length, a matrix with explicit dimensions, or
a rank-3 array (ranks above 3 play no role in the source).  Entries are
total functions on indices; only indices below the recorded dimensions
are meaningful.  Raising `ValueError` is modelled by `Except String`.
The random draws of `rand_corr_vine` (the Beta-distributed partial
correlations and the final permutation) are passed in explicitly, which
models running the function with an arbitrary seed.  The constant
`ERFINVGAMMA0 = erfinv(2 * GAMMA_0 - 1)` is the value of the external
scipy special function `erfinv`, which has no closed form; the
development is therefore parameterized by its value, written `E0`.
-/

noncomputable section

namespace EP

/- ### Calibration constants, common.py lines 14-29 -/

/-- Target coefficient of determination (line 15). -/
def R_SQUARED : ℝ := 0.5

/-- Classification percentage threshold (line 20). -/
def P_0 : ℝ := 0.2

/-- Tail probability threshold (line 22). -/
def GAMMA_0 : ℝ := 0.01

/-- Min linear predictor term standard deviation (line 24). -/
def SIGMA_F0 : ℝ := 0.25

/-- Precalculated constant `LOGITP0 = logit(P_0)` (line 27); the scipy
function `logit p` is `log (p / (1 - p))`. -/
def LOGITP0 : ℝ := Real.log (P_0 / (1 - P_0))

/-- Precalculated constant `DELTA_MAX` (line 29), as a function of the
abstract value `E0` of `ERFINVGAMMA0 = erfinv(2 * GAMMA_0 - 1)`. -/
def DELTA_MAX (E0 : ℝ) : ℝ := Real.sqrt 2 * SIGMA_F0 * E0 - LOGITP0

/- ### The vine generator `rand_corr_vine`, common.py lines 32-77 -/

/-- Matrices are modelled as total functions on indices. -/
abbrev Mat := ℕ → ℕ → ℝ

/-- Model of `np.eye d` (line 62). -/
def eye (d : ℕ) : Mat := fun i j => if i = j ∧ i < d then 1 else 0

/-- In-place write of value `v` at entry `(a, b)` of a matrix. -/
def matUpdate (M : Mat) (a b : ℕ) (v : ℝ) : Mat :=
  fun x y => if x = a ∧ y = b then v else M x y

/-- The affine map applied to each Beta draw (lines 53-54):
`betas *= pmax - pmin; betas += pmin`, sending `[0, 1]` draws into
`[pmin, pmax]`. -/
def affineToRange (pmin pmax u : ℝ) : ℝ := u * (pmax - pmin) + pmin

/-- The triangular buffer `P` of `rand_corr_vine` (lines 49-58), given the
sampled partial correlations `p i j` for pairs `i < j < d`.  The strict
upper triangle holds the raw sampled partial correlation, the strict lower
triangle holds its square (`np.square(betas); P.T[uinds] = betas`).  The
diagonal is never read by the algorithm (the array is `np.empty`); it is
modelled as `0`, as are entries outside the `d x d` range. -/
def vineP (d : ℕ) (p : ℕ → ℕ → ℝ) : Mat :=
  fun i j =>
    if i < j ∧ j < d then p i j
    else if j < i ∧ i < d then (p j i) ^ 2
    else 0

/-- The accumulation of `cur` in the innermost loop (lines 66-69):
starting from `cur = P[i, j]`, for `k` in `range(i - 1, -1, -1)` do
`cur *= sqrt((1 - P[i, k]) * (1 - P[j, k])); cur += P[k, i] * P[k, j]`.
The buffer `P` is only read in the loop body, never written. -/
def vineInner (P : Mat) (i j : ℕ) : ℝ :=
  ((List.range i).reverse).foldl
    (fun cur k => cur * Real.sqrt ((1 - P i k) * (1 - P j k)) + P k i * P k j)
    (P i j)

/-- The two nested loops over pairs `i < j` (lines 64-71), writing the
combined value of each pair into `C[i, j]` and `C[j, i]`, starting from
`C = np.eye d`. -/
def vineLoop (d : ℕ) (P : Mat) : Mat :=
  (List.range (d - 1)).foldl
    (fun C i =>
      (List.range' (i + 1) (d - (i + 1))).foldl
        (fun C j =>
          let cur := vineInner P i j
          matUpdate (matUpdate C i j cur) j i cur)
        C)
    (eye d)

/-- Model of `rand_corr_vine` (lines 32-77) with the random draws made
explicit: `p i j` (for `i < j < d`) are the sampled partial correlations
after the affine map into `[pmin, pmax]`, and `perm` is the random
permutation of `range d` applied symmetrically to rows and columns
(`C = C[np.ix_(perm, perm)]`, so entry `(a, b)` of the result is entry
`(perm a, perm b)` of `C`). -/
def rand_corr_vine (d : ℕ) (p : ℕ → ℕ → ℝ) (perm : ℕ → ℕ) : Mat :=
  fun a b => vineLoop d (vineP d p) (perm a) (perm b)

/-- Closed form of the combination loop for one pair `i < j`, reading the
entries of the triangular buffer as the source actually stores them: the
factor under the square root uses the squares `(p k i)^2`, `(p k j)^2`
held in the lower triangle, and the added product uses the raw partial
correlations `p k i * p k j` held in the upper triangle. -/
def vineCombine (p : ℕ → ℕ → ℝ) (i j : ℕ) : ℝ :=
  ((List.range i).reverse).foldl
    (fun cur k =>
      cur * Real.sqrt ((1 - (p k i) ^ 2) * (1 - (p k j) ^ 2)) + p k i * p k j)
    (p i j)

/- ### Characterization of the vine loop -/

theorem foldl_inv {α β : Type*} (Q : β → Prop) (f : β → α → β) :
    ∀ (l : List α) (b : β), Q b → (∀ b a, Q b → a ∈ l → Q (f b a)) →
      Q (l.foldl f b) := by
  intro l
  induction l with
  | nil => intro b hb _; simpa using hb
  | cons x xs ih =>
      intro b hb hf
      simp only [List.foldl_cons]
      exact ih _ (hf b x hb (by simp)) (fun b a hb ha => hf b a hb (by simp [ha]))

theorem foldl_congr_mem {α β : Type*} (l : List α) (f g : β → α → β) (b : β)
    (h : ∀ c a, a ∈ l → f c a = g c a) : l.foldl f b = l.foldl g b := by
  induction l generalizing b with
  | nil => rfl
  | cons x xs ih =>
      simp only [List.foldl_cons]
      rw [h b x (by simp)]
      exact ih _ (fun c a ha => h c a (by simp [ha]))

/-- Effect of the inner `j` loop at level `i` on an arbitrary accumulator
matrix: every visited pair `(i, j)` and its mirror `(j, i)` receive the
combined value; all other entries are untouched. -/
theorem innerFold_apply (P : Mat) (i : ℕ) (js : List ℕ) (hne : i ∉ js)
    (C : Mat) (x y : ℕ) :
    (js.foldl
      (fun C j =>
        let cur := vineInner P i j
        matUpdate (matUpdate C i j cur) j i cur) C) x y =
      if x = i ∧ y ∈ js then vineInner P i y
      else if y = i ∧ x ∈ js then vineInner P i x
      else C x y := by
  induction js generalizing C with
  | nil => simp
  | cons j js ih =>
      have hij : i ≠ j := fun h => hne (by simp [h])
      have hne' : i ∉ js := fun h => hne (by simp [h])
      simp only [List.foldl_cons]
      rw [ih hne']
      simp only [List.mem_cons]
      by_cases hx : x = i
      · have h2 : ¬ (y = i ∧ x ∈ js) := by
          rintro ⟨-, h3⟩; exact hne' (hx ▸ h3)
        by_cases hy : y ∈ js
        · rw [if_pos ⟨hx, hy⟩, if_pos ⟨hx, Or.inr hy⟩]
        · rw [if_neg (by tauto), if_neg h2]
          by_cases hyj : y = j
          · rw [if_pos ⟨hx, Or.inl hyj⟩]
            subst hx; subst hyj
            simp [matUpdate, hij, Ne.symm hij]
          · have h2' : ¬ (y = i ∧ (x = j ∨ x ∈ js)) := by
              rintro ⟨-, h3 | h3⟩
              · exact hij (hx ▸ h3)
              · exact hne' (hx ▸ h3)
            rw [if_neg (by tauto), if_neg h2']
            subst hx
            simp [matUpdate, hyj, hij]
      · rw [if_neg (by tauto)]
        by_cases hy : y = i
        · by_cases hxs : x ∈ js
          · rw [if_pos ⟨hy, hxs⟩, if_neg (by tauto), if_pos ⟨hy, Or.inr hxs⟩]
          · rw [if_neg (by tauto), if_neg (by tauto)]
            by_cases hxj : x = j
            · rw [if_pos ⟨hy, Or.inl hxj⟩]
              subst hy; subst hxj
              simp [matUpdate]
            · rw [if_neg (by tauto)]
              subst hy
              simp [matUpdate, hx, hxj, hij]
        · rw [if_neg (by tauto), if_neg (by tauto), if_neg (by tauto)]
          simp [matUpdate, hx, hy]

/-- Effect of the outer `i` loop: entry `(x, y)` of the result is the
combined value of the pair when `x < y < d` (or its mirror) and the level
`min x y` has been visited, and is otherwise the initial matrix entry. -/
theorem outerFold_apply (d : ℕ) (P : Mat) (is : List ℕ) (C : Mat) (x y : ℕ) :
    (is.foldl
      (fun C i =>
        (List.range' (i + 1) (d - (i + 1))).foldl
          (fun C j =>
            let cur := vineInner P i j
            matUpdate (matUpdate C i j cur) j i cur)
          C) C) x y =
      if x < y ∧ y < d ∧ x ∈ is then vineInner P x y
      else if y < x ∧ x < d ∧ y ∈ is then vineInner P y x
      else C x y := by
  induction is generalizing C with
  | nil => simp
  | cons i is ih =>
      have hmem : ∀ z, z ∈ List.range' (i + 1) (d - (i + 1)) ↔ i < z ∧ z < d := by
        intro z
        rw [List.mem_range'_1]
        omega
      have hni : i ∉ List.range' (i + 1) (d - (i + 1)) := by
        rw [hmem]; omega
      simp only [List.foldl_cons]
      rw [ih, innerFold_apply P i _ hni]
      by_cases hA : x < y ∧ y < d ∧ x ∈ i :: is
      · rw [if_pos hA]
        rcases hA with ⟨hxy, hyd, hxm⟩
        rcases List.mem_cons.mp hxm with hxi | hxs
        · by_cases hxs' : x ∈ is
          · rw [if_pos ⟨hxy, hyd, hxs'⟩]
          · rw [if_neg (by tauto)]
            rw [if_neg (by rintro ⟨h, -, -⟩; omega)]
            rw [if_pos ⟨hxi, (hmem y).mpr ⟨hxi ▸ hxy, hyd⟩⟩]
            rw [hxi]
        · rw [if_pos ⟨hxy, hyd, hxs⟩]
      · rw [if_neg hA]
        by_cases hB : y < x ∧ x < d ∧ y ∈ i :: is
        · rw [if_pos hB]
          rcases hB with ⟨hyx, hxd, hym⟩
          have hA' : ¬ (x < y ∧ y < d ∧ x ∈ is) := by rintro ⟨h, -, -⟩; omega
          rcases List.mem_cons.mp hym with hyi | hys
          · by_cases hys' : y ∈ is
            · rw [if_neg hA', if_pos ⟨hyx, hxd, hys'⟩]
            · rw [if_neg hA']
              rw [if_neg (by tauto)]
              rw [if_neg (by rintro ⟨h, -⟩; omega)]
              rw [if_pos ⟨hyi, (hmem x).mpr ⟨hyi ▸ hyx, hxd⟩⟩]
              rw [hyi]
          · rw [if_neg hA', if_pos ⟨hyx, hxd, hys⟩]
        · rw [if_neg hB]
          have hA' : ¬ (x < y ∧ y < d ∧ x ∈ is) := by
            rintro ⟨h1, h2, h3⟩; exact hA ⟨h1, h2, List.mem_cons.mpr (Or.inr h3)⟩
          have hB' : ¬ (y < x ∧ x < d ∧ y ∈ is) := by
            rintro ⟨h1, h2, h3⟩; exact hB ⟨h1, h2, List.mem_cons.mpr (Or.inr h3)⟩
          rw [if_neg hA', if_neg hB']
          have hin1 : ¬ (x = i ∧ y ∈ List.range' (i + 1) (d - (i + 1))) := by
            rintro ⟨h1, h2⟩
            rcases (hmem y).mp h2 with ⟨h3, h4⟩
            exact hA ⟨h1 ▸ h3, h4, List.mem_cons.mpr (Or.inl h1)⟩
          have hin2 : ¬ (y = i ∧ x ∈ List.range' (i + 1) (d - (i + 1))) := by
            rintro ⟨h1, h2⟩
            rcases (hmem x).mp h2 with ⟨h3, h4⟩
            exact hB ⟨h1 ▸ h3, h4, List.mem_cons.mpr (Or.inl h1)⟩
          rw [if_neg hin1, if_neg hin2]

/-- Entry-level characterization of the combination loop: for `x < y < d`
the written value is `vineInner`, the diagonal and out-of-range entries
keep the values of `np.eye d`. -/
theorem vineLoop_apply (d : ℕ) (P : Mat) (x y : ℕ) :
    vineLoop d P x y =
      if x < y ∧ y < d then vineInner P x y
      else if y < x ∧ x < d then vineInner P y x
      else eye d x y := by
  unfold vineLoop
  rw [outerFold_apply]
  have h1 : (x < y ∧ y < d ∧ x ∈ List.range (d - 1)) ↔ (x < y ∧ y < d) := by
    rw [List.mem_range]; omega
  have h2 : (y < x ∧ x < d ∧ y ∈ List.range (d - 1)) ↔ (y < x ∧ x < d) := by
    rw [List.mem_range]; omega
  by_cases hA : x < y ∧ y < d
  · rw [if_pos (h1.mpr hA), if_pos hA]
  · rw [if_neg (fun h => hA (h1.mp h)), if_neg hA]
    by_cases hB : y < x ∧ x < d
    · rw [if_pos (h2.mpr hB), if_pos hB]
    · rw [if_neg (fun h => hB (h2.mp h)), if_neg hB]

/-- Reading the buffer entries as the source stores them, the inner loop
for a pair `i < j < d` computes exactly the closed-form recurrence
`vineCombine`. -/
theorem vineInner_eq_vineCombine (d : ℕ) (p : ℕ → ℕ → ℝ) (i j : ℕ)
    (hij : i < j) (hjd : j < d) :
    vineInner (vineP d p) i j = vineCombine p i j := by
  unfold vineInner vineCombine
  have hinit : vineP d p i j = p i j := by
    unfold vineP; rw [if_pos ⟨hij, hjd⟩]
  rw [hinit]
  apply foldl_congr_mem
  intro c k hk
  have hki : k < i := by rw [List.mem_reverse, List.mem_range] at hk; exact hk
  have hid : i < d := lt_trans hij hjd
  have h1 : vineP d p i k = (p k i) ^ 2 := by
    unfold vineP; rw [if_neg (by omega), if_pos ⟨hki, hid⟩]
  have h2 : vineP d p j k = (p k j) ^ 2 := by
    unfold vineP; rw [if_neg (by omega), if_pos ⟨by omega, hjd⟩]
  have h3 : vineP d p k i = p k i := by
    unfold vineP; rw [if_pos ⟨hki, hid⟩]
  have h4 : vineP d p k j = p k j := by
    unfold vineP; rw [if_pos ⟨by omega, hjd⟩]
  rw [h1, h2, h3, h4]

/-- C1, amended: for every `d ≥ 2` and every sequence of sampled partial
correlations, the combination loop computes, for each pair `i < j` with
`k` descending from `i - 1` to `0`,
`cur = cur * sqrt((1 - P[i,k]) * (1 - P[j,k])) + P[k,i] * P[k,j]`,
where `P[i,k] = (p k i)^2` and `P[j,k] = (p k j)^2` are the squares of the
raw partial correlations stored in the lower triangle, and
`P[k,i] = p k i`, `P[k,j] = p k j` are the raw sampled partial
correlations stored in the upper triangle.  The buffer `P` is never
written during the recursion (the combined values are written into the
separate output matrix `C`), so nothing is overwritten in place. -/
theorem vine_combination_recurrence (d : ℕ) (p : ℕ → ℕ → ℝ) (hd : 2 ≤ d) :
    ∀ i j, i < j → j < d → vineLoop d (vineP d p) i j = vineCombine p i j := by
  intro i j hij hjd
  rw [vineLoop_apply, if_pos ⟨hij, hjd⟩]
  exact vineInner_eq_vineCombine d p i j hij hjd

theorem vine_combination_recurrence_witness :
    vineLoop 2 (vineP 2 (fun _ _ => 0)) 0 1 = vineCombine (fun _ _ => 0) 0 1 :=
  vine_combination_recurrence 2 (fun _ _ => 0) (by norm_num) 0 1 (by norm_num)
    (by norm_num)

/-- Concrete sampled partial correlations refuting the reading of C1 in
which the factors under the square root are raw partial correlations and
the added products are previously combined values. -/
def pC1 : ℕ → ℕ → ℝ := fun i j =>
  if i = 0 ∧ j = 1 then 3 / 5 else if i = 1 ∧ j = 2 then 1 else 0

/-- Counterexample to C1 as stated: at `d = 3` with sampled partial
correlations `p 0 1 = 3/5`, `p 0 2 = 0`, `p 1 2 = 1`, the value the code
writes for the pair `(1, 2)` (namely `sqrt(16/25) = 4/5`, using the
squares from the lower triangle) differs from the value prescribed by the
claim for that pair, namely
`P[1,2] * sqrt((1 - P[1,0]) * (1 - P[2,0])) + P[0,1] * P[0,2]` with
`P[1,0], P[2,0]` read as the raw partial correlations `p 0 1, p 0 2` and
`P[0,1], P[0,2]` read as the already-combined values of the pairs
`(0,1), (0,2)` (which equal `vineLoop ... 0 1` and `vineLoop ... 0 2`,
both readings agreeing for pairs with first index `0`).  The claimed
value is `sqrt(2/5) ≠ 4/5`. -/
theorem vine_lower_triangle_cex :
    vineLoop 3 (vineP 3 pC1) 1 2 ≠
      pC1 1 2 * Real.sqrt ((1 - pC1 0 1) * (1 - pC1 0 2)) +
        vineLoop 3 (vineP 3 pC1) 0 1 * vineLoop 3 (vineP 3 pC1) 0 2 := by
  have h02 : vineLoop 3 (vineP 3 pC1) 0 2 = 0 := by
    rw [vineLoop_apply, if_pos (by norm_num)]
    unfold vineInner
    norm_num [vineP, pC1]
  have h12 : vineLoop 3 (vineP 3 pC1) 1 2 = 4 / 5 := by
    rw [vineLoop_apply, if_pos (by norm_num)]
    unfold vineInner
    have hr : (List.range 1).reverse = [0] := rfl
    rw [hr]
    simp only [List.foldl_cons, List.foldl_nil]
    have e0 : vineP 3 pC1 1 2 = 1 := by norm_num [vineP, pC1]
    have e1 : vineP 3 pC1 1 0 = (3 / 5 : ℝ) ^ 2 := by norm_num [vineP, pC1]
    have e2 : vineP 3 pC1 2 0 = 0 := by norm_num [vineP, pC1]
    have e3 : vineP 3 pC1 0 1 = (3 / 5 : ℝ) := by norm_num [vineP, pC1]
    have e4 : vineP 3 pC1 0 2 = 0 := by norm_num [vineP, pC1]
    rw [e0, e1, e2, e3, e4]
    rw [show ((1 : ℝ) - (3 / 5 : ℝ) ^ 2) * (1 - 0) = (4 / 5 : ℝ) ^ 2 by norm_num]
    rw [Real.sqrt_sq (by norm_num : (0:ℝ) ≤ 4 / 5)]
    norm_num
  have hs : Real.sqrt ((1 - pC1 0 1) * (1 - pC1 0 2)) = Real.sqrt (2 / 5) := by
    norm_num [pC1]
  rw [h02, h12, hs, mul_zero, add_zero]
  have hp12 : pC1 1 2 = 1 := by norm_num [pC1]
  rw [hp12, one_mul]
  have hlt : Real.sqrt (2 / 5) < 4 / 5 := by
    have := Real.sq_sqrt (by norm_num : (0:ℝ) ≤ 2 / 5)
    nlinarith [Real.sqrt_nonneg (2 / 5 : ℝ)]
  exact ne_of_gt hlt

/-- One combination step keeps values inside `[-1, 1]`: if `|a|, |b|, |c|`
are at most `1`, so is `|c * sqrt((1 - a^2) * (1 - b^2)) + a * b|`. -/
theorem vine_step_bound (a b c : ℝ) (ha : |a| ≤ 1) (hb : |b| ≤ 1) (hc : |c| ≤ 1) :
    |c * Real.sqrt ((1 - a ^ 2) * (1 - b ^ 2)) + a * b| ≤ 1 := by
  have ha2 : a ^ 2 ≤ 1 := by nlinarith [abs_nonneg a, sq_abs a]
  have hb2 : b ^ 2 ≤ 1 := by nlinarith [abs_nonneg b, sq_abs b]
  set s := Real.sqrt ((1 - a ^ 2) * (1 - b ^ 2)) with hsdef
  have hs0 : 0 ≤ s := Real.sqrt_nonneg _
  have hs2 : s ^ 2 = (1 - a ^ 2) * (1 - b ^ 2) :=
    Real.sq_sqrt (mul_nonneg (by linarith) (by linarith))
  have hab : |a| * |b| ≤ 1 :=
    mul_le_one₀ ha (abs_nonneg b) hb
  have h1 : |c * s + a * b| ≤ |c| * s + |a| * |b| := by
    calc |c * s + a * b| ≤ |c * s| + |a * b| := abs_add _ _
    _ = |c| * s + |a| * |b| := by rw [abs_mul, abs_mul, abs_of_nonneg hs0]
  have h2 : |c| * s ≤ s := by nlinarith [abs_nonneg c]
  have h3 : s + |a| * |b| ≤ 1 := by
    nlinarith [sq_nonneg (|a| - |b|), sq_abs a, sq_abs b,
      mul_nonneg (abs_nonneg a) (abs_nonneg b)]
  linarith

/-- All combined values lie in `[-1, 1]` when the sampled partial
correlations do. -/
theorem vineInner_abs_le (d : ℕ) (p : ℕ → ℕ → ℝ) (i j : ℕ)
    (hij : i < j) (hjd : j < d)
    (hp : ∀ a b, a < b → b < d → |p a b| ≤ 1) :
    |vineInner (vineP d p) i j| ≤ 1 := by
  rw [vineInner_eq_vineCombine d p i j hij hjd]
  unfold vineCombine
  apply foldl_inv (fun c => |c| ≤ 1)
  · exact hp i j hij hjd
  · intro c k hc hk
    have hki : k < i := by rw [List.mem_reverse, List.mem_range] at hk; exact hk
    exact vine_step_bound (p k i) (p k j) c (hp k i hki (lt_trans hij hjd))
      (hp k j (by omega) hjd) hc

/-- C3: for every `d ≥ 2` and every sampled set of partial correlations
lying in `[pmin, pmax] ⊆ [-1, 1]`, the matrix returned by
`rand_corr_vine` is symmetric, has unit diagonal, and every entry lies in
`[-1, 1]`. -/
theorem rand_corr_vine_output_valid (d : ℕ) (p : ℕ → ℕ → ℝ) (perm : ℕ → ℕ)
    (pmin pmax : ℝ) (hd : 2 ≤ d)
    (hperm : ∀ a, a < d → perm a < d)
    (hlo : -1 ≤ pmin) (hhi : pmax ≤ 1)
    (hp : ∀ i j, i < j → j < d → pmin ≤ p i j ∧ p i j ≤ pmax) :
    ∀ a b, a < d → b < d →
      rand_corr_vine d p perm a b = rand_corr_vine d p perm b a ∧
      rand_corr_vine d p perm a a = 1 ∧
      |rand_corr_vine d p perm a b| ≤ 1 := by
  have hp1 : ∀ i j, i < j → j < d → |p i j| ≤ 1 := by
    intro i j h1 h2
    rcases hp i j h1 h2 with ⟨hl, hh⟩
    rw [abs_le]
    constructor <;> linarith
  intro a b had hbd
  have hpa := hperm a had
  have hpb := hperm b hbd
  unfold rand_corr_vine
  refine ⟨?_, ?_, ?_⟩
  · rw [vineLoop_apply, vineLoop_apply]
    rcases lt_trichotomy (perm a) (perm b) with h | h | h
    · rw [if_pos ⟨h, hpb⟩, if_neg (by omega), if_pos ⟨h, hpb⟩]
    · rw [h]
    · rw [if_neg (by omega), if_pos ⟨h, hpa⟩, if_pos ⟨h, hpa⟩]
  · rw [vineLoop_apply, if_neg (by omega), if_neg (by omega)]
    unfold eye
    rw [if_pos ⟨rfl, hpa⟩]
  · rw [vineLoop_apply]
    rcases lt_trichotomy (perm a) (perm b) with h | h | h
    · rw [if_pos ⟨h, hpb⟩]
      exact vineInner_abs_le d p _ _ h hpb hp1
    · rw [if_neg (by omega), if_neg (by omega)]
      unfold eye
      rw [if_pos ⟨h, hpa⟩]
      norm_num
    · rw [if_neg (by omega), if_pos ⟨h, hpa⟩]
      exact vineInner_abs_le d p _ _ h hpa hp1

theorem rand_corr_vine_output_valid_witness :
    |rand_corr_vine 2 (fun _ _ => 0) id 0 1| ≤ 1 :=
  (rand_corr_vine_output_valid 2 (fun _ _ => 0) id (-1) 1 (by norm_num)
    (fun a ha => ha) (by norm_num) (by norm_num)
    (fun i j _ _ => by norm_num) 0 1 (by norm_num) (by norm_num)).2.2

/-- C10: for `d = 1` the function returns exactly the `1 x 1` identity
matrix, for every choice of sampled values and every permutation of the
single index (the shape parameters only influence the sampled values
`p`, which are arbitrary here). -/
theorem rand_corr_vine_dim_one (p : ℕ → ℕ → ℝ) (perm : ℕ → ℕ)
    (hperm : ∀ a, a < 1 → perm a < 1) :
    ∀ a b, a < 1 → b < 1 →
      rand_corr_vine 1 p perm a b = if a = b then 1 else 0 := by
  intro a b ha hb
  have ha0 : a = 0 := by omega
  have hb0 : b = 0 := by omega
  subst ha0; subst hb0
  have hp0 : perm 0 = 0 := by
    have := hperm 0 (by norm_num)
    omega
  unfold rand_corr_vine
  rw [vineLoop_apply, hp0]
  norm_num [eye]

theorem rand_corr_vine_dim_one_witness :
    rand_corr_vine 1 (fun _ _ => 0) id 0 0 = if 0 = 0 then (1:ℝ) else 0 :=
  rand_corr_vine_dim_one (fun _ _ => 0) id (fun a ha => ha) 0 0 (by norm_num)
    (by norm_num)

/- ### Model of numpy arrays -/

/-- Model of a numpy float array of rank at most 3 (the source only
distinguishes ranks 0, 1, 2 and rejects alpha of rank above 1 and beta of
rank above 2; rank 3 is included so that the rejection itself can be
stated).  Dimensions are explicit; entries are total functions and only
indices below the recorded dimensions are meaningful. -/
inductive Arr where
  | s (x : ℝ)
  | v (D : ℕ) (x : ℕ → ℝ)
  | m (J D : ℕ) (x : ℕ → ℕ → ℝ)
  | t (A B C : ℕ) (x : ℕ → ℕ → ℕ → ℝ)

/-- Model of `arr.ndim`. -/
def Arr.ndim : Arr → ℕ
  | .s _ => 0
  | .v _ _ => 1
  | .m _ _ _ => 2
  | .t _ _ _ _ => 3

/-- Model of `arr.shape[-1]` (0 for a scalar, which has no axes; the
source only consults it behind an `ndim == 0` short-circuit). -/
def Arr.lastDim : Arr → ℕ
  | .s _ => 0
  | .v D _ => D
  | .m _ D _ => D
  | .t _ _ C _ => C

/-- Model of `arr.shape[0]` (0 for a scalar). -/
def Arr.leadDim : Arr → ℕ
  | .s _ => 0
  | .v D _ => D
  | .m J _ _ => J
  | .t A _ _ _ => A

/-- Model of `arr.shape` as a list. -/
def shapeOf : Arr → List ℕ
  | .s _ => []
  | .v D _ => [D]
  | .m J D _ => [J, D]
  | .t A B C _ => [A, B, C]

/-- Row-wise sum of squares `np.sum(np.square(b))` over `D` entries. -/
def sumSq (D : ℕ) (b : ℕ → ℝ) : ℝ := ∑ i in Finset.range D, (b i) ^ 2

/-- Sum `np.sum(b)` over `D` entries. -/
def sumVec (D : ℕ) (b : ℕ → ℝ) : ℝ := ∑ i in Finset.range D, b i

/-- Quadratic form `np.sum(b.dot(S) * b)` for a length-`D` vector `b` and
a `D x D` matrix `S`. -/
def quadForm (D : ℕ) (b : ℕ → ℝ) (S : Mat) : ℝ :=
  ∑ j in Finset.range D, (∑ i in Finset.range D, b i * S i j) * b j

/-- The `D x D` identity matrix (as a total function on indices). -/
def idMat : Mat := fun i j => if i = j then 1 else 0

/-- Error message of lines 106-108 and 173-175 (two adjacent string
literals in the source concatenate). -/
def errSigmaMsg : String := "Input dimension has to be greater than 1 if Sigma is provided"

/-- Error message of line 161. -/
def errDimMsg : String := "Dimension of input arguments is too big"

/- ### The linear regression calibrator, common.py lines 80-129 -/

/-- The computation of `calc_input_param_lin_reg` after its validation
(lines 109-129).  One-dimensional branch: `beta` becomes the (only)
scalar coefficient per group and the result is
`sqrt(R2 / (1 - R2)) * sigma / |beta|`; multidimensional branch: with `q`
the row-wise quadratic form (or sum of squares), the result is
`sqrt(R2 / (q * (1 - R2))) * sigma`.  A rank-3 `beta` flows through the
same numpy expressions elementwise, which the last match arms mirror.
The scalar arm of the second match is unreachable (`ndim = 0` is caught
by the first branch). -/
def calc_lin_core (beta : Arr) (sigma : ℝ) (Sigma_x : Option Mat) : Arr :=
  if beta.ndim = 0 ∨ beta.lastDim = 1 then
    match beta with
    | .s x => .s (Real.sqrt (R_SQUARED / (1 - R_SQUARED)) * sigma / |x|)
    | .v _ x => .s (Real.sqrt (R_SQUARED / (1 - R_SQUARED)) * sigma / |x 0|)
    | .m J _ x => .v J (fun j => Real.sqrt (R_SQUARED / (1 - R_SQUARED)) * sigma / |x j 0|)
    | .t A B C x =>
        .t A B C (fun u v w => Real.sqrt (R_SQUARED / (1 - R_SQUARED)) * sigma / |x u v w|)
  else
    match beta with
    | .s _ => .s 0
    | .v D x =>
        let q := match Sigma_x with
          | none => sumSq D x
          | some S => quadForm D x S
        .s (Real.sqrt (R_SQUARED / (q * (1 - R_SQUARED))) * sigma)
    | .m J D x =>
        .v J (fun j =>
          let q := match Sigma_x with
            | none => sumSq D (x j)
            | some S => quadForm D (x j) S
          Real.sqrt (R_SQUARED / (q * (1 - R_SQUARED))) * sigma)
    | .t A B C x =>
        .m A B (fun u v =>
          let q := match Sigma_x with
            | none => sumSq C (x u v)
            | some S => quadForm C (x u v) S
          Real.sqrt (R_SQUARED / (q * (1 - R_SQUARED))) * sigma)

/-- Model of `calc_input_param_lin_reg` (lines 80-129): the validation of
lines 105-108 raises `ValueError` when `Sigma_x` is provided while the
input dimension is at most 1; otherwise the pure computation runs. -/
def calc_input_param_lin_reg (beta : Arr) (sigma : ℝ) (Sigma_x : Option Mat) :
    Except String Arr :=
  if Sigma_x.isSome ∧ (beta.ndim = 0 ∨ beta.lastDim ≤ 1) then .error errSigmaMsg
  else .ok (calc_lin_core beta sigma Sigma_x)

/- ### The classification calibrator, common.py lines 132-318 -/

/-- Group count determination (lines 162-167): the length of `alpha` if
`alpha` is one-dimensional with length different from 1, else the leading
dimension of `beta` if `beta` is two-dimensional with leading dimension
different from 1, else 1. -/
def detJ (alpha beta : Arr) : ℕ :=
  if alpha.ndim = 1 ∧ alpha.leadDim ≠ 1 then alpha.leadDim
  else if beta.ndim = 2 ∧ beta.leadDim ≠ 1 then beta.leadDim
  else 1

/-- Model of `np.squeeze` on arrays of rank at most 2 (axes of size 1 are
removed; the rank-3 arm is never reached, rank-3 inputs having been
rejected before any squeeze in the source). -/
def squeeze : Arr → Arr
  | .s x => .s x
  | .v D x => if D = 1 then .s (x 0) else .v D x
  | .m J D x =>
      if J = 1 then (if D = 1 then .s (x 0 0) else .v D (fun k => x 0 k))
      else if D = 1 then .v J (fun j => x j 0) else .m J D x
  | .t A B C x => .t A B C x

/-- Model of `np.squeeze(alpha)[()]` (line 180): on the single-group path
`alpha` has shape `()` or `(1,)`, and this extracts its scalar value (the
fallback 0 is never reached there). -/
def squeezeScalar (a : Arr) : ℝ :=
  match squeeze a with
  | .s x => x
  | _ => 0

/-- Normalization of `beta` on the multiple-group path (lines 220-223):
a `(1, D)` matrix becomes its row, a scalar becomes a length-1 vector. -/
def betaMulti : Arr → Arr
  | .m J D x => if J = 1 then .v D (fun k => x 0 k) else .m J D x
  | .s x => .v 1 (fun _ => x)
  | b => b

/-- The computation of `calc_input_param_classification` after its
validation (lines 178-316).  The structure mirrors the source: a
single-group path branching on the shape of the squeezed `beta` and on
`|alpha| < DELTA_MAX`, and a multiple-group path with three sub-cases
(common alpha with per-row beta; per-group alpha with common beta;
both varying).  The wildcard match arms are unreachable for inputs that
pass validation, as the shape analysis in the proofs shows. -/
def calc_cls_core (E0 : ℝ) (alpha beta : Arr) (Sigma_x : Option Mat) : Arr × Arr :=
  let J := detJ alpha beta
  if J = 1 then
    let a := squeezeScalar alpha
    let pack : ℝ → ℝ → Arr × Arr := fun mu sig =>
      if alpha.ndim = 0 ∧ beta.ndim < 2 then (.s mu, .s sig)
      else (.v 1 (fun _ => mu), .v 1 (fun _ => sig))
    match squeeze beta with
    | .s b =>
        if |a| < DELTA_MAX E0 then
          pack 0 ((LOGITP0 + |a|) / (E0 * (Real.sqrt 2 * |b|)))
        else
          let mu := if 0 < a then (DELTA_MAX E0 - a) / b else (-DELTA_MAX E0 - a) / b
          pack mu (SIGMA_F0 / |b|)
    | .v D b =>
        if |a| < DELTA_MAX E0 then
          let ssbeta := match Sigma_x with
            | none => Real.sqrt (2 * sumSq D b)
            | some S => Real.sqrt (2 * quadForm D b S)
          pack 0 ((LOGITP0 + |a|) / (E0 * ssbeta))
        else
          let mu := if 0 < a then (DELTA_MAX E0 - a) / sumVec D b
                    else (-DELTA_MAX E0 - a) / sumVec D b
          let ssbeta := match Sigma_x with
            | none => Real.sqrt (sumSq D b)
            | some S => Real.sqrt (quadForm D b S)
          pack mu (SIGMA_F0 / ssbeta)
    | _ => (.s 0, .s 0)
  else
    match squeeze alpha, betaMulti beta with
    | .s a, .m _ D x =>
        if |a| < DELTA_MAX E0 then
          let sig : ℕ → ℝ :=
            if D ≠ 1 then
              fun j =>
                let q := match Sigma_x with
                  | none => sumSq D (x j)
                  | some S => quadForm D (x j) S
                Real.sqrt (q * 2)
            else fun j => Real.sqrt 2 * |x j 0|
          (.v J (fun _ => 0), .v J (fun j => (LOGITP0 + |a|) / (sig j * E0)))
        else
          let mu : ℕ → ℝ := fun j =>
            if 0 < a then (DELTA_MAX E0 - a) / sumVec D (x j)
            else (-DELTA_MAX E0 - a) / sumVec D (x j)
          let sig : ℕ → ℝ :=
            if D ≠ 1 then
              fun j =>
                let q := match Sigma_x with
                  | none => sumSq D (x j)
                  | some S => quadForm D (x j) S
                Real.sqrt q
            else fun j => |x j 0|
          (.v J mu, .v J (fun j => SIGMA_F0 / sig j))
    | .v _ a, .v Db b =>
        let sbeta := sumVec Db b
        let ssbeta :=
          if Db ≠ 1 then
            match Sigma_x with
            | none => Real.sqrt (sumSq Db b)
            | some S => Real.sqrt (quadForm Db b S)
          else |b 0|
        let divisor := Real.sqrt 2 * E0 * ssbeta
        (.v J (fun j =>
            if |a j| < DELTA_MAX E0 then 0
            else if 0 < a j then (DELTA_MAX E0 - a j) / sbeta
            else (-DELTA_MAX E0 - a j) / sbeta),
         .v J (fun j =>
            if |a j| < DELTA_MAX E0 then (LOGITP0 + |a j|) / divisor
            else SIGMA_F0 / ssbeta))
    | .v _ a, .m _ D x =>
        let sbeta : ℕ → ℝ := fun j => sumVec D (x j)
        let ssbeta : ℕ → ℝ :=
          if D ≠ 1 then
            fun j =>
              match Sigma_x with
              | none => Real.sqrt (sumSq D (x j))
              | some S => Real.sqrt (quadForm D (x j) S)
          else fun j => |x j 0|
        let divisor : ℕ → ℝ := fun j => Real.sqrt 2 * E0 * ssbeta j
        (.v J (fun j =>
            if |a j| < DELTA_MAX E0 then 0
            else if 0 < a j then (DELTA_MAX E0 - a j) / sbeta j
            else (-DELTA_MAX E0 - a j) / sbeta j),
         .v J (fun j =>
            if |a j| < DELTA_MAX E0 then (LOGITP0 + |a j|) / divisor j
            else SIGMA_F0 / ssbeta j))
    | _, _ => (.s 0, .s 0)

/-- Model of `calc_input_param_classification` (lines 132-318).  The
validation of line 160 rejects `alpha` of rank above 1 and `beta` of rank
above 2; the validation of lines 172-175 rejects a provided `Sigma_x`
with input dimension at most 1; the group count determination between
them raises nothing, so the order of checks is preserved.  `E0` is the
value of the module constant `ERFINVGAMMA0`. -/
def calc_input_param_classification (E0 : ℝ) (alpha beta : Arr)
    (Sigma_x : Option Mat) : Except String (Arr × Arr) :=
  if 1 < alpha.ndim ∨ 2 < beta.ndim then .error errDimMsg
  else if Sigma_x.isSome ∧ (beta.ndim = 0 ∨ beta.lastDim ≤ 1) then .error errSigmaMsg
  else .ok (calc_cls_core E0 alpha beta Sigma_x)

/- ### C5: the error conditions of the two calibrators -/

/-- C5: `calc_input_param_lin_reg` fails exactly when `Sigma_x` is
provided and the input dimension is at most 1 (`beta` scalar or last
axis of length at most 1); `calc_input_param_classification` fails
exactly when `alpha` has rank above 1, `beta` has rank above 2, or
`Sigma_x` is provided with input dimension at most 1.  Failure is
modelled by `Except.error`, which carries no partial result; in the
model, as in the source, the validation precedes all numerical work. -/
theorem calibrator_error_iff :
    (∀ beta sigma Sigma_x,
        (∃ e, calc_input_param_lin_reg beta sigma Sigma_x = .error e) ↔
          (Sigma_x.isSome ∧ (beta.ndim = 0 ∨ beta.lastDim ≤ 1))) ∧
    (∀ E0 alpha beta Sigma_x,
        (∃ e, calc_input_param_classification E0 alpha beta Sigma_x = .error e) ↔
          (1 < alpha.ndim ∨ 2 < beta.ndim ∨
            Sigma_x.isSome ∧ (beta.ndim = 0 ∨ beta.lastDim ≤ 1))) := by
  constructor
  · intro beta sigma Sigma_x
    unfold calc_input_param_lin_reg
    by_cases h : Sigma_x.isSome ∧ (beta.ndim = 0 ∨ beta.lastDim ≤ 1)
    · rw [if_pos h]
      exact iff_of_true ⟨errSigmaMsg, rfl⟩ h
    · rw [if_neg h]
      refine iff_of_false ?_ h
      rintro ⟨e, he⟩
      exact Except.noConfusion he
  · intro E0 alpha beta Sigma_x
    unfold calc_input_param_classification
    by_cases h1 : 1 < alpha.ndim ∨ 2 < beta.ndim
    · rw [if_pos h1]
      exact iff_of_true ⟨errDimMsg, rfl⟩ (by tauto)
    · rw [if_neg h1]
      by_cases h2 : Sigma_x.isSome ∧ (beta.ndim = 0 ∨ beta.lastDim ≤ 1)
      · rw [if_pos h2]
        exact iff_of_true ⟨errSigmaMsg, rfl⟩ (by tauto)
      · rw [if_neg h2]
        refine iff_of_false ?_ (by tauto)
        rintro ⟨e, he⟩
        exact Except.noConfusion he

/- ### C6 and C7: the linear regression formulas -/

/-- C6: for every one-dimensional input with nonzero coefficients
(a scalar, a length-1 vector, or a `J x 1` matrix processed per group),
the result is `sqrt(R_SQUARED / (1 - R_SQUARED)) * sigma / |beta|`; in
particular `beta = 2, sigma = 1, Sigma_x = None` yields exactly `1/2`
under the default `R_SQUARED = 0.5`. -/
theorem lin_reg_one_dim :
    (∀ (x : ℝ) sigma, x ≠ 0 → calc_input_param_lin_reg (.s x) sigma none =
        .ok (.s (Real.sqrt (R_SQUARED / (1 - R_SQUARED)) * sigma / |x|))) ∧
    (∀ (x : ℕ → ℝ) sigma, x 0 ≠ 0 → calc_input_param_lin_reg (.v 1 x) sigma none =
        .ok (.s (Real.sqrt (R_SQUARED / (1 - R_SQUARED)) * sigma / |x 0|))) ∧
    (∀ J (x : ℕ → ℕ → ℝ) sigma, (∀ j, j < J → x j 0 ≠ 0) →
        calc_input_param_lin_reg (.m J 1 x) sigma none =
        .ok (.v J (fun j => Real.sqrt (R_SQUARED / (1 - R_SQUARED)) * sigma / |x j 0|))) ∧
    calc_input_param_lin_reg (.s 2) 1 none = .ok (.s (1 / 2)) := by
  refine ⟨fun x sigma _ => rfl, fun x sigma _ => rfl, fun J x sigma _ => rfl, ?_⟩
  have h : calc_input_param_lin_reg (.s 2) 1 none =
      .ok (.s (Real.sqrt (R_SQUARED / (1 - R_SQUARED)) * 1 / |(2:ℝ)|)) := rfl
  have hs : Real.sqrt (R_SQUARED / (1 - R_SQUARED)) = 1 := by
    rw [show R_SQUARED / (1 - R_SQUARED) = 1 by norm_num [R_SQUARED]]
    exact Real.sqrt_one
  rw [h, hs]
  norm_num

theorem lin_reg_one_dim_witness :
    calc_input_param_lin_reg (.s 2) 1 none =
      .ok (.s (Real.sqrt (R_SQUARED / (1 - R_SQUARED)) * 1 / |(2:ℝ)|)) :=
  lin_reg_one_dim.1 2 1 (by norm_num)

/-- The quadratic form against the identity matrix is the sum of
squares. -/
theorem quadForm_idMat (D : ℕ) (x : ℕ → ℝ) : quadForm D x idMat = sumSq D x := by
  unfold quadForm sumSq idMat
  apply Finset.sum_congr rfl
  intro j hj
  calc (∑ i in Finset.range D, x i * if i = j then (1:ℝ) else 0) * x j
      = (∑ i in Finset.range D, if i = j then x i else 0) * x j := by
        congr 1
        apply Finset.sum_congr rfl
        intro i _
        split <;> ring
    _ = x j * x j := by
        rw [Finset.sum_ite_eq' (Finset.range D) j (fun i => x i), if_pos hj]
    _ = x j ^ 2 := (pow_two (x j)).symm

/-- C7: for input dimension `D > 1`, calling with `Sigma_x` equal to the
identity gives the same result as `Sigma_x = None`, both equal to
`sigma * sqrt(R_SQUARED / (q * (1 - R_SQUARED)))` with `q` the row-wise
sum of squares. -/
theorem lin_reg_identity_reduces (sigma : ℝ) (D : ℕ) (hD : 1 < D) :
    (∀ x : ℕ → ℝ,
        calc_input_param_lin_reg (.v D x) sigma (some idMat) =
          calc_input_param_lin_reg (.v D x) sigma none ∧
        calc_input_param_lin_reg (.v D x) sigma none =
          .ok (.s (sigma * Real.sqrt (R_SQUARED / (sumSq D x * (1 - R_SQUARED)))))) ∧
    (∀ J (x : ℕ → ℕ → ℝ),
        calc_input_param_lin_reg (.m J D x) sigma (some idMat) =
          calc_input_param_lin_reg (.m J D x) sigma none ∧
        calc_input_param_lin_reg (.m J D x) sigma none =
          .ok (.v J (fun j =>
            sigma * Real.sqrt (R_SQUARED / (sumSq D (x j) * (1 - R_SQUARED)))))) := by
  constructor
  · intro x
    have h1 : calc_input_param_lin_reg (.v D x) sigma (some idMat) =
        .ok (.s (Real.sqrt (R_SQUARED / (quadForm D x idMat * (1 - R_SQUARED))) * sigma)) := by
      unfold calc_input_param_lin_reg calc_lin_core
      rw [if_neg (by simp [Arr.ndim, Arr.lastDim]; omega)]
      rw [if_neg (by simp [Arr.ndim, Arr.lastDim]; omega)]
    have h2 : calc_input_param_lin_reg (.v D x) sigma none =
        .ok (.s (Real.sqrt (R_SQUARED / (sumSq D x * (1 - R_SQUARED))) * sigma)) := by
      unfold calc_input_param_lin_reg calc_lin_core
      rw [if_neg (by simp)]
      rw [if_neg (by simp [Arr.ndim, Arr.lastDim]; omega)]
    refine ⟨?_, ?_⟩
    · rw [h1, h2, quadForm_idMat]
    · rw [h2, mul_comm (Real.sqrt _) sigma]
  · intro J x
    have h1 : calc_input_param_lin_reg (.m J D x) sigma (some idMat) =
        .ok (.v J (fun j =>
          Real.sqrt (R_SQUARED / (quadForm D (x j) idMat * (1 - R_SQUARED))) * sigma)) := by
      unfold calc_input_param_lin_reg calc_lin_core
      rw [if_neg (by simp [Arr.ndim, Arr.lastDim]; omega)]
      rw [if_neg (by simp [Arr.ndim, Arr.lastDim]; omega)]
    have h2 : calc_input_param_lin_reg (.m J D x) sigma none =
        .ok (.v J (fun j =>
          Real.sqrt (R_SQUARED / (sumSq D (x j) * (1 - R_SQUARED))) * sigma)) := by
      unfold calc_input_param_lin_reg calc_lin_core
      rw [if_neg (by simp)]
      rw [if_neg (by simp [Arr.ndim, Arr.lastDim]; omega)]
    refine ⟨?_, ?_⟩
    · rw [h1, h2]
      congr 2
      funext j
      rw [quadForm_idMat]
    · rw [h2]
      congr 2
      funext j
      rw [mul_comm]

theorem lin_reg_identity_reduces_witness :
    calc_input_param_lin_reg (.v 2 (fun _ => 1)) 1 (some idMat) =
      calc_input_param_lin_reg (.v 2 (fun _ => 1)) 1 none :=
  ((lin_reg_identity_reduces 1 2 (by norm_num)).1 (fun _ => 1)).1

/- ### Evaluation lemmas for the classification core -/

theorem cls_core_s_s (E0 a b : ℝ) (Sx : Option Mat) :
    calc_cls_core E0 (.s a) (.s b) Sx =
      (if |a| < DELTA_MAX E0 then
        ((.s 0 : Arr), (.s ((LOGITP0 + |a|) / (E0 * (Real.sqrt 2 * |b|))) : Arr))
       else
        (.s (if 0 < a then (DELTA_MAX E0 - a) / b else (-DELTA_MAX E0 - a) / b),
         .s (SIGMA_F0 / |b|))) := rfl

theorem cls_core_s_v1 (E0 a : ℝ) (b : ℕ → ℝ) (Sx : Option Mat) :
    calc_cls_core E0 (.s a) (.v 1 b) Sx =
      (if |a| < DELTA_MAX E0 then
        ((.s 0 : Arr), (.s ((LOGITP0 + |a|) / (E0 * (Real.sqrt 2 * |b 0|))) : Arr))
       else
        (.s (if 0 < a then (DELTA_MAX E0 - a) / b 0 else (-DELTA_MAX E0 - a) / b 0),
         .s (SIGMA_F0 / |b 0|))) := rfl

theorem cls_core_s_v_none (E0 a : ℝ) (D : ℕ) (b : ℕ → ℝ) (hD : D ≠ 1) :
    calc_cls_core E0 (.s a) (.v D b) none =
      (if |a| < DELTA_MAX E0 then
        ((.s 0 : Arr),
         (.s ((LOGITP0 + |a|) / (E0 * Real.sqrt (2 * sumSq D b))) : Arr))
       else
        (.s (if 0 < a then (DELTA_MAX E0 - a) / sumVec D b
             else (-DELTA_MAX E0 - a) / sumVec D b),
         .s (SIGMA_F0 / Real.sqrt (sumSq D b)))) := by
  have hsq : squeeze (.v D b) = .v D b := by
    simp only [squeeze]
    rw [if_neg hD]
  simp only [calc_cls_core, hsq]
  rfl

theorem cls_core_s_v_some (E0 a : ℝ) (D : ℕ) (b : ℕ → ℝ) (S : Mat) (hD : D ≠ 1) :
    calc_cls_core E0 (.s a) (.v D b) (some S) =
      (if |a| < DELTA_MAX E0 then
        ((.s 0 : Arr),
         (.s ((LOGITP0 + |a|) / (E0 * Real.sqrt (2 * quadForm D b S))) : Arr))
       else
        (.s (if 0 < a then (DELTA_MAX E0 - a) / sumVec D b
             else (-DELTA_MAX E0 - a) / sumVec D b),
         .s (SIGMA_F0 / Real.sqrt (quadForm D b S)))) := by
  have hsq : squeeze (.v D b) = .v D b := by
    simp only [squeeze]
    rw [if_neg hD]
  simp only [calc_cls_core, hsq]
  rfl

theorem cls_core_v_m1 (E0 : ℝ) (J : ℕ) (al : ℕ → ℝ) (x : ℕ → ℕ → ℝ)
    (Sx : Option Mat) (hJ : J ≠ 1) :
    calc_cls_core E0 (.v J al) (.m J 1 x) Sx =
      (.v J (fun j =>
          if |al j| < DELTA_MAX E0 then 0
          else if 0 < al j then (DELTA_MAX E0 - al j) / sumVec 1 (x j)
          else (-DELTA_MAX E0 - al j) / sumVec 1 (x j)),
       .v J (fun j =>
          if |al j| < DELTA_MAX E0 then
            (LOGITP0 + |al j|) / (Real.sqrt 2 * E0 * |x j 0|)
          else SIGMA_F0 / |x j 0|)) := by
  have hd : detJ (.v J al) (.m J 1 x) = J := by
    unfold detJ
    rw [if_pos ⟨rfl, hJ⟩]
    rfl
  have hsq : squeeze (.v J al) = .v J al := by
    simp only [squeeze]
    rw [if_neg hJ]
  have hbm : betaMulti (.m J 1 x) = .m J 1 x := by
    simp only [betaMulti]
    rw [if_neg hJ]
  simp only [calc_cls_core, hd, hsq, hbm]
  rw [if_neg hJ]
  rfl

theorem cls_core_v_mD_none (E0 : ℝ) (J D : ℕ) (al : ℕ → ℝ) (x : ℕ → ℕ → ℝ)
    (hJ : J ≠ 1) (hD : D ≠ 1) :
    calc_cls_core E0 (.v J al) (.m J D x) none =
      (.v J (fun j =>
          if |al j| < DELTA_MAX E0 then 0
          else if 0 < al j then (DELTA_MAX E0 - al j) / sumVec D (x j)
          else (-DELTA_MAX E0 - al j) / sumVec D (x j)),
       .v J (fun j =>
          if |al j| < DELTA_MAX E0 then
            (LOGITP0 + |al j|) / (Real.sqrt 2 * E0 * Real.sqrt (sumSq D (x j)))
          else SIGMA_F0 / Real.sqrt (sumSq D (x j)))) := by
  have hd : detJ (.v J al) (.m J D x) = J := by
    unfold detJ
    rw [if_pos ⟨rfl, hJ⟩]
    rfl
  have hsq : squeeze (.v J al) = .v J al := by
    simp only [squeeze]
    rw [if_neg hJ]
  have hbm : betaMulti (.m J D x) = .m J D x := by
    simp only [betaMulti]
    rw [if_neg hJ]
  simp only [calc_cls_core, hd, hsq, hbm]
  rw [if_neg hJ]
  simp only [if_pos hD]

theorem cls_core_v_mD_some (E0 : ℝ) (J D : ℕ) (al : ℕ → ℝ) (x : ℕ → ℕ → ℝ)
    (S : Mat) (hJ : J ≠ 1) (hD : D ≠ 1) :
    calc_cls_core E0 (.v J al) (.m J D x) (some S) =
      (.v J (fun j =>
          if |al j| < DELTA_MAX E0 then 0
          else if 0 < al j then (DELTA_MAX E0 - al j) / sumVec D (x j)
          else (-DELTA_MAX E0 - al j) / sumVec D (x j)),
       .v J (fun j =>
          if |al j| < DELTA_MAX E0 then
            (LOGITP0 + |al j|) / (Real.sqrt 2 * E0 * Real.sqrt (quadForm D (x j) S))
          else SIGMA_F0 / Real.sqrt (quadForm D (x j) S))) := by
  have hd : detJ (.v J al) (.m J D x) = J := by
    unfold detJ
    rw [if_pos ⟨rfl, hJ⟩]
    rfl
  have hsq : squeeze (.v J al) = .v J al := by
    simp only [squeeze]
    rw [if_neg hJ]
  have hbm : betaMulti (.m J D x) = .m J D x := by
    simp only [betaMulti]
    rw [if_neg hJ]
  simp only [calc_cls_core, hd, hsq, hbm]
  rw [if_neg hJ]
  simp only [if_pos hD]

/- ### Numeric facts about the constants -/

theorem LOGITP0_eq : LOGITP0 = - Real.log 4 := by
  unfold LOGITP0 P_0
  rw [show (0.2 : ℝ) / (1 - 0.2) = 4⁻¹ by norm_num]
  exact Real.log_inv 4

theorem DELTA_MAX_zero : DELTA_MAX 0 = Real.log 4 := by
  unfold DELTA_MAX
  rw [mul_zero, LOGITP0_eq]
  ring

theorem DELTA_MAX_zero_pos : 0 < DELTA_MAX 0 := by
  rw [DELTA_MAX_zero]
  exact Real.log_pos (by norm_num)

theorem DELTA_MAX_zero_lt_hundred : DELTA_MAX 0 < 100 := by
  rw [DELTA_MAX_zero]
  have h1 : Real.log 4 < 4 - 1 := by
    have := Real.log_lt_sub_one_of_pos (x := 4) (by norm_num) (by norm_num)
    linarith
  linarith

/- ### C2: the single-group classification formulas -/

/-- Aggregate slope magnitude named in the spec for the single-group
path: the square root of the `Sigma_x` quadratic form when a covariance
structure is provided, else the square root of the sum of squares. -/
def slopeMag (D : ℕ) (b : ℕ → ℝ) (Sx : Option Mat) : ℝ :=
  match Sx with
  | none => Real.sqrt (sumSq D b)
  | some S => Real.sqrt (quadForm D b S)

theorem slopeMag_one (b : ℕ → ℝ) : slopeMag 1 b none = |b 0| := by
  unfold slopeMag sumSq
  rw [Finset.sum_range_one, Real.sqrt_sq_eq_abs]

/-- C2: for a single group (J = 1) with scalar alpha and scalar-or-vector
beta: if `|alpha| < DELTA_MAX`, the function returns `mu_x = 0` and
`sigma_x = (LOGITP0 + |alpha|) / (ERFINVGAMMA0 * sqrt 2 * s)`, where `s`
is the aggregate slope magnitude (the square root of the `Sigma_x`
quadratic form or of the sum of squares; `|beta|` for a scalar beta); if
`|alpha| >= DELTA_MAX`, it returns `mu_x = (DELTA_MAX - alpha)/sum(beta)`
when `alpha > 0` and `mu_x = (-DELTA_MAX - alpha)/sum(beta)` otherwise,
and `sigma_x = SIGMA_F0 / s` with the unscaled slope magnitude (no
`sqrt 2` factor). -/
theorem cls_single_group_formulas (E0 a : ℝ) :
    (∀ b : ℝ, |a| < DELTA_MAX E0 →
        calc_input_param_classification E0 (.s a) (.s b) none =
          .ok (.s 0, .s ((LOGITP0 + |a|) / (E0 * Real.sqrt 2 * |b|)))) ∧
    (∀ b : ℝ, DELTA_MAX E0 ≤ |a| → 0 < a →
        calc_input_param_classification E0 (.s a) (.s b) none =
          .ok (.s ((DELTA_MAX E0 - a) / b), .s (SIGMA_F0 / |b|))) ∧
    (∀ b : ℝ, DELTA_MAX E0 ≤ |a| → ¬ 0 < a →
        calc_input_param_classification E0 (.s a) (.s b) none =
          .ok (.s ((-DELTA_MAX E0 - a) / b), .s (SIGMA_F0 / |b|))) ∧
    (∀ D (b : ℕ → ℝ) Sx, (Sx = none ∨ 1 < D) → |a| < DELTA_MAX E0 →
        calc_input_param_classification E0 (.s a) (.v D b) Sx =
          .ok (.s 0, .s ((LOGITP0 + |a|) / (E0 * Real.sqrt 2 * slopeMag D b Sx)))) ∧
    (∀ D (b : ℕ → ℝ) Sx, (Sx = none ∨ 1 < D) → DELTA_MAX E0 ≤ |a| → 0 < a →
        calc_input_param_classification E0 (.s a) (.v D b) Sx =
          .ok (.s ((DELTA_MAX E0 - a) / sumVec D b), .s (SIGMA_F0 / slopeMag D b Sx))) ∧
    (∀ D (b : ℕ → ℝ) Sx, (Sx = none ∨ 1 < D) → DELTA_MAX E0 ≤ |a| → ¬ 0 < a →
        calc_input_param_classification E0 (.s a) (.v D b) Sx =
          .ok (.s ((-DELTA_MAX E0 - a) / sumVec D b), .s (SIGMA_F0 / slopeMag D b Sx))) := by
  have hwv : ∀ D (b : ℕ → ℝ) (Sx : Option Mat), (Sx = none ∨ 1 < D) →
      calc_input_param_classification E0 (.s a) (.v D b) Sx =
        .ok (calc_cls_core E0 (.s a) (.v D b) Sx) := by
    intro D b Sx hSx
    unfold calc_input_param_classification
    rw [if_neg (by simp [Arr.ndim])]
    rw [if_neg ?_]
    rcases hSx with h | h
    · subst h; simp
    · simp only [Arr.ndim, Arr.lastDim]
      rintro ⟨-, h1 | h1⟩
      · exact absurd h1 (by norm_num)
      · omega
  refine ⟨?_, ?_, ?_, ?_, ?_, ?_⟩
  · intro b hlt
    have hw : calc_input_param_classification E0 (.s a) (.s b) none =
        .ok (calc_cls_core E0 (.s a) (.s b) none) := rfl
    rw [hw, cls_core_s_s, if_pos hlt, mul_assoc]
  · intro b hge ha
    have hw : calc_input_param_classification E0 (.s a) (.s b) none =
        .ok (calc_cls_core E0 (.s a) (.s b) none) := rfl
    rw [hw, cls_core_s_s, if_neg (not_lt.mpr hge), if_pos ha]
  · intro b hge ha
    have hw : calc_input_param_classification E0 (.s a) (.s b) none =
        .ok (calc_cls_core E0 (.s a) (.s b) none) := rfl
    rw [hw, cls_core_s_s, if_neg (not_lt.mpr hge), if_neg ha]
  · intro D b Sx hSx hlt
    rw [hwv D b Sx hSx]
    by_cases hD : D = 1
    · subst hD
      have hnone : Sx = none := by
        rcases hSx with h | h
        · exact h
        · omega
      subst hnone
      rw [cls_core_s_v1, if_pos hlt, slopeMag_one, mul_assoc]
    · cases Sx with
      | none =>
          rw [cls_core_s_v_none E0 a D b hD, if_pos hlt]
          unfold slopeMag
          rw [Real.sqrt_mul (by norm_num : (0:ℝ) ≤ 2), ← mul_assoc]
      | some S =>
          rw [cls_core_s_v_some E0 a D b S hD, if_pos hlt]
          unfold slopeMag
          rw [Real.sqrt_mul (by norm_num : (0:ℝ) ≤ 2), ← mul_assoc]
  · intro D b Sx hSx hge ha
    rw [hwv D b Sx hSx]
    by_cases hD : D = 1
    · subst hD
      have hnone : Sx = none := by
        rcases hSx with h | h
        · exact h
        · omega
      subst hnone
      rw [cls_core_s_v1, if_neg (not_lt.mpr hge), if_pos ha, slopeMag_one]
      have hsv : sumVec 1 b = b 0 := by
        simp [sumVec]
      rw [hsv]
    · cases Sx with
      | none =>
          rw [cls_core_s_v_none E0 a D b hD, if_neg (not_lt.mpr hge), if_pos ha]
          rfl
      | some S =>
          rw [cls_core_s_v_some E0 a D b S hD, if_neg (not_lt.mpr hge), if_pos ha]
          rfl
  · intro D b Sx hSx hge ha
    rw [hwv D b Sx hSx]
    by_cases hD : D = 1
    · subst hD
      have hnone : Sx = none := by
        rcases hSx with h | h
        · exact h
        · omega
      subst hnone
      rw [cls_core_s_v1, if_neg (not_lt.mpr hge), if_neg ha, slopeMag_one]
      have hsv : sumVec 1 b = b 0 := by
        simp [sumVec]
      rw [hsv]
    · cases Sx with
      | none =>
          rw [cls_core_s_v_none E0 a D b hD, if_neg (not_lt.mpr hge), if_neg ha]
          rfl
      | some S =>
          rw [cls_core_s_v_some E0 a D b S hD, if_neg (not_lt.mpr hge), if_neg ha]
          rfl

theorem cls_single_group_formulas_witness :
    calc_input_param_classification 0 (.s 0) (.s 1) none =
      .ok (.s 0, .s ((LOGITP0 + |(0:ℝ)|) / (0 * Real.sqrt 2 * |(1:ℝ)|))) :=
  (cls_single_group_formulas 0 0).1 1 (by rw [abs_zero]; exact DELTA_MAX_zero_pos)

/- ### C8: all-zero slope coefficients are not guarded -/

/-- C8: for inputs whose slope coefficients are all zero, the function
raises no validation error: it returns a result (Except.ok) rather than
an INVALID_ARGUMENT failure, and the slope aggregates used as divisors
(`sqrt 2 * |beta|`, `sqrt(2 * sum(beta^2))`, `sum(beta)`, ...) are
exactly zero, so the returned `sigma_x` (and `mu_x` on the mean-shift
branch) are unguarded divisions by zero.  The real numbers of this model
have no IEEE infinities or NaN; the division by the zero slope magnitude
is what this theorem certifies. -/
theorem cls_zero_slope_unguarded :
    (∀ E0 a : ℝ, ∃ mu sig : ℝ,
        calc_input_param_classification E0 (.s a) (.s 0) none =
          .ok (.s mu, .s sig)) ∧
    (∀ (E0 a : ℝ) (D : ℕ), ∃ mu sig : ℝ,
        calc_input_param_classification E0 (.s a) (.v D (fun _ => 0)) none =
          .ok (.s mu, .s sig)) ∧
    (∀ D : ℕ, sumSq D (fun _ => (0:ℝ)) = 0 ∧ sumVec D (fun _ => (0:ℝ)) = 0 ∧
        Real.sqrt 2 * |(0:ℝ)| = 0) := by
  refine ⟨?_, ?_, ?_⟩
  · intro E0 a
    have hw : calc_input_param_classification E0 (.s a) (.s 0) none =
        .ok (calc_cls_core E0 (.s a) (.s 0) none) := rfl
    by_cases hc : |a| < DELTA_MAX E0
    · exact ⟨_, _, by rw [hw, cls_core_s_s, if_pos hc]⟩
    · exact ⟨_, _, by rw [hw, cls_core_s_s, if_neg hc]⟩
  · intro E0 a D
    have hw : calc_input_param_classification E0 (.s a) (.v D (fun _ => 0)) none =
        .ok (calc_cls_core E0 (.s a) (.v D (fun _ => 0)) none) := by
      unfold calc_input_param_classification
      rw [if_neg (by simp [Arr.ndim])]
      rw [if_neg (by simp)]
    by_cases hD : D = 1
    · subst hD
      by_cases hc : |a| < DELTA_MAX E0
      · exact ⟨_, _, by rw [hw, cls_core_s_v1, if_pos hc]⟩
      · exact ⟨_, _, by rw [hw, cls_core_s_v1, if_neg hc]⟩
    · by_cases hc : |a| < DELTA_MAX E0
      · exact ⟨_, _, by rw [hw, cls_core_s_v_none E0 a D _ hD, if_pos hc]⟩
      · exact ⟨_, _, by rw [hw, cls_core_s_v_none E0 a D _ hD, if_neg hc]⟩
  · intro D
    refine ⟨?_, ?_, ?_⟩
    · simp [sumSq]
    · simp [sumVec]
    · simp

/- ### C4: multi-group consistency -/

theorem cls_wrap_v_m (E0 : ℝ) (J D : ℕ) (al : ℕ → ℝ) (x : ℕ → ℕ → ℝ)
    (Sx : Option Mat) (hSx : Sx = none ∨ 1 < D) :
    calc_input_param_classification E0 (.v J al) (.m J D x) Sx =
      .ok (calc_cls_core E0 (.v J al) (.m J D x) Sx) := by
  unfold calc_input_param_classification
  rw [if_neg (by simp [Arr.ndim])]
  rw [if_neg ?_]
  rcases hSx with h | h
  · subst h; simp
  · simp only [Arr.ndim, Arr.lastDim]
    rintro ⟨-, h1 | h1⟩
    · exact absurd h1 (by norm_num)
    · omega

/-- C4: calling the calibrator with J identical (alpha, beta) pairs
across all groups returns J repetitions of the single-group result: for
a scalar pair (alpha0, beta0) via the length-J constant alpha vector and
the J x 1 matrix whose rows all equal beta0, and, in general, for a
common coefficient row b0 of any input dimension D via the J x D matrix
whose rows all equal b0, against the single-group result for
(alpha0, b0). -/
theorem cls_multigroup_consistency (E0 a0 : ℝ) (J : ℕ) (hJ : 1 < J) :
    (∀ b0 : ℝ, ∃ mu sig : ℝ,
        calc_input_param_classification E0 (.s a0) (.s b0) none =
          .ok (.s mu, .s sig) ∧
        calc_input_param_classification E0 (.v J (fun _ => a0))
            (.m J 1 (fun _ _ => b0)) none =
          .ok (.v J (fun _ => mu), .v J (fun _ => sig))) ∧
    (∀ (D : ℕ) (b0 : ℕ → ℝ) (Sx : Option Mat), (Sx = none ∨ 1 < D) →
        ∃ mu sig : ℝ,
        calc_input_param_classification E0 (.s a0) (.v D b0) Sx =
          .ok (.s mu, .s sig) ∧
        calc_input_param_classification E0 (.v J (fun _ => a0))
            (.m J D (fun _ => b0)) Sx =
          .ok (.v J (fun _ => mu), .v J (fun _ => sig))) := by
  have hJ' : J ≠ 1 := by omega
  constructor
  · intro b0
    have hw1 : calc_input_param_classification E0 (.s a0) (.s b0) none =
        .ok (calc_cls_core E0 (.s a0) (.s b0) none) := rfl
    have hw2 := cls_wrap_v_m E0 J 1 (fun _ => a0) (fun _ _ => b0) none (Or.inl rfl)
    rw [hw1, hw2, cls_core_s_s, cls_core_v_m1 E0 J _ _ none hJ']
    by_cases hc : |a0| < DELTA_MAX E0
    · refine ⟨0, (LOGITP0 + |a0|) / (E0 * (Real.sqrt 2 * |b0|)), ?_, ?_⟩
      · rw [if_pos hc]
      · refine congrArg Except.ok (Prod.ext ?_ ?_)
        · exact congrArg (Arr.v J) (funext fun j => by rw [if_pos hc])
        · refine congrArg (Arr.v J) (funext fun j => ?_)
          rw [if_pos hc]
          congr 1
          ring
    · refine ⟨if 0 < a0 then (DELTA_MAX E0 - a0) / b0 else (-DELTA_MAX E0 - a0) / b0,
        SIGMA_F0 / |b0|, ?_, ?_⟩
      · rw [if_neg hc]
      · have hs : sumVec 1 (fun _ : ℕ => b0) = b0 := by simp [sumVec]
        refine congrArg Except.ok (Prod.ext ?_ ?_)
        · exact congrArg (Arr.v J) (funext fun j => by rw [if_neg hc, hs])
        · exact congrArg (Arr.v J) (funext fun j => by rw [if_neg hc])
  · intro D b0 Sx hSx
    have hw1 : calc_input_param_classification E0 (.s a0) (.v D b0) Sx =
        .ok (calc_cls_core E0 (.s a0) (.v D b0) Sx) := by
      unfold calc_input_param_classification
      rw [if_neg (by simp [Arr.ndim])]
      rw [if_neg ?_]
      rcases hSx with h | h
      · subst h; simp
      · simp only [Arr.ndim, Arr.lastDim]
        rintro ⟨-, h1 | h1⟩
        · exact absurd h1 (by norm_num)
        · omega
    have hw2 := cls_wrap_v_m E0 J D (fun _ => a0) (fun _ => b0) Sx hSx
    rw [hw1, hw2]
    by_cases hD : D = 1
    · subst hD
      have hnone : Sx = none := by
        rcases hSx with h | h
        · exact h
        · omega
      subst hnone
      rw [cls_core_s_v1, cls_core_v_m1 E0 J _ _ none hJ']
      by_cases hc : |a0| < DELTA_MAX E0
      · refine ⟨0, (LOGITP0 + |a0|) / (E0 * (Real.sqrt 2 * |b0 0|)), ?_, ?_⟩
        · rw [if_pos hc]
        · refine congrArg Except.ok (Prod.ext ?_ ?_)
          · exact congrArg (Arr.v J) (funext fun j => by rw [if_pos hc])
          · refine congrArg (Arr.v J) (funext fun j => ?_)
            rw [if_pos hc]
            congr 1
            ring
      · refine ⟨if 0 < a0 then (DELTA_MAX E0 - a0) / b0 0 else (-DELTA_MAX E0 - a0) / b0 0,
          SIGMA_F0 / |b0 0|, ?_, ?_⟩
        · rw [if_neg hc]
        · have hs : sumVec 1 b0 = b0 0 := by simp [sumVec]
          refine congrArg Except.ok (Prod.ext ?_ ?_)
          · exact congrArg (Arr.v J) (funext fun j => by rw [if_neg hc, hs])
          · exact congrArg (Arr.v J) (funext fun j => by rw [if_neg hc])
    · cases Sx with
      | none =>
          rw [cls_core_s_v_none E0 a0 D b0 hD,
            cls_core_v_mD_none E0 J D (fun _ => a0) (fun _ => b0) hJ' hD]
          by_cases hc : |a0| < DELTA_MAX E0
          · refine ⟨0, (LOGITP0 + |a0|) / (E0 * Real.sqrt (2 * sumSq D b0)), ?_, ?_⟩
            · rw [if_pos hc]
            · refine congrArg Except.ok (Prod.ext ?_ ?_)
              · exact congrArg (Arr.v J) (funext fun j => by rw [if_pos hc])
              · refine congrArg (Arr.v J) (funext fun j => ?_)
                rw [if_pos hc]
                congr 1
                rw [Real.sqrt_mul (by norm_num : (0:ℝ) ≤ 2)]
                ring
          · refine ⟨if 0 < a0 then (DELTA_MAX E0 - a0) / sumVec D b0
                else (-DELTA_MAX E0 - a0) / sumVec D b0,
              SIGMA_F0 / Real.sqrt (sumSq D b0), ?_, ?_⟩
            · rw [if_neg hc]
            · refine congrArg Except.ok (Prod.ext ?_ ?_)
              · exact congrArg (Arr.v J) (funext fun j => by rw [if_neg hc])
              · exact congrArg (Arr.v J) (funext fun j => by rw [if_neg hc])
      | some S =>
          rw [cls_core_s_v_some E0 a0 D b0 S hD,
            cls_core_v_mD_some E0 J D (fun _ => a0) (fun _ => b0) S hJ' hD]
          by_cases hc : |a0| < DELTA_MAX E0
          · refine ⟨0, (LOGITP0 + |a0|) / (E0 * Real.sqrt (2 * quadForm D b0 S)), ?_, ?_⟩
            · rw [if_pos hc]
            · refine congrArg Except.ok (Prod.ext ?_ ?_)
              · exact congrArg (Arr.v J) (funext fun j => by rw [if_pos hc])
              · refine congrArg (Arr.v J) (funext fun j => ?_)
                rw [if_pos hc]
                congr 1
                rw [Real.sqrt_mul (by norm_num : (0:ℝ) ≤ 2)]
                ring
          · refine ⟨if 0 < a0 then (DELTA_MAX E0 - a0) / sumVec D b0
                else (-DELTA_MAX E0 - a0) / sumVec D b0,
              SIGMA_F0 / Real.sqrt (quadForm D b0 S), ?_, ?_⟩
            · rw [if_neg hc]
            · refine congrArg Except.ok (Prod.ext ?_ ?_)
              · exact congrArg (Arr.v J) (funext fun j => by rw [if_neg hc])
              · exact congrArg (Arr.v J) (funext fun j => by rw [if_neg hc])

/- ### Further evaluation lemmas (all reachable shape combinations) -/

theorem cls_core_s_m11 (E0 a : ℝ) (x : ℕ → ℕ → ℝ) (Sx : Option Mat) :
    calc_cls_core E0 (.s a) (.m 1 1 x) Sx =
      if |a| < DELTA_MAX E0 then
        ((.v 1 (fun _ => (0:ℝ)) : Arr),
         (.v 1 (fun _ => (LOGITP0 + |a|) / (E0 * (Real.sqrt 2 * |x 0 0|))) : Arr))
      else
        (.v 1 (fun _ => if 0 < a then (DELTA_MAX E0 - a) / x 0 0
                        else (-DELTA_MAX E0 - a) / x 0 0),
         .v 1 (fun _ => SIGMA_F0 / |x 0 0|)) := rfl

theorem cls_core_s_m1D (E0 a : ℝ) (D : ℕ) (x : ℕ → ℕ → ℝ) (Sx : Option Mat)
    (hD : D ≠ 1) :
    calc_cls_core E0 (.s a) (.m 1 D x) Sx =
      if |a| < DELTA_MAX E0 then
        ((.v 1 (fun _ => (0:ℝ)) : Arr),
         (.v 1 (fun _ => (LOGITP0 + |a|) /
            (E0 * match Sx with
                  | none => Real.sqrt (2 * sumSq D (fun k => x 0 k))
                  | some S => Real.sqrt (2 * quadForm D (fun k => x 0 k) S))) : Arr))
      else
        (.v 1 (fun _ => if 0 < a then (DELTA_MAX E0 - a) / sumVec D (fun k => x 0 k)
                        else (-DELTA_MAX E0 - a) / sumVec D (fun k => x 0 k)),
         .v 1 (fun _ => SIGMA_F0 /
            match Sx with
            | none => Real.sqrt (sumSq D (fun k => x 0 k))
            | some S => Real.sqrt (quadForm D (fun k => x 0 k) S))) := by
  have hsq : squeeze (.m 1 D x) = .v D (fun k => x 0 k) := by
    simp only [squeeze]
    rw [if_pos trivial, if_neg hD]
  simp only [calc_cls_core, hsq]
  cases Sx <;> rfl

theorem cls_core_s_mJ (E0 a : ℝ) (J D : ℕ) (x : ℕ → ℕ → ℝ) (Sx : Option Mat)
    (hJ : J ≠ 1) :
    calc_cls_core E0 (.s a) (.m J D x) Sx =
      if |a| < DELTA_MAX E0 then
        ((.v J (fun _ => (0:ℝ)) : Arr),
         (.v J (fun j => (LOGITP0 + |a|) /
            ((if D ≠ 1 then
                (fun j => Real.sqrt ((match Sx with
                   | none => sumSq D (x j)
                   | some S => quadForm D (x j) S) * 2))
              else fun j => Real.sqrt 2 * |x j 0|) j * E0)) : Arr))
      else
        (.v J (fun j => if 0 < a then (DELTA_MAX E0 - a) / sumVec D (x j)
                        else (-DELTA_MAX E0 - a) / sumVec D (x j)),
         .v J (fun j => SIGMA_F0 /
            (if D ≠ 1 then
                (fun j => Real.sqrt (match Sx with
                   | none => sumSq D (x j)
                   | some S => quadForm D (x j) S))
              else fun j => |x j 0|) j)) := by
  have hd : detJ (.s a) (.m J D x) = J := by
    unfold detJ
    rw [if_neg (by simp [Arr.ndim]), if_pos ⟨rfl, hJ⟩]
    rfl
  have hbm : betaMulti (.m J D x) = .m J D x := by
    simp only [betaMulti]
    rw [if_neg hJ]
  simp only [calc_cls_core, hd, hbm]
  rw [if_neg hJ]
  cases Sx <;> rfl

theorem cls_core_v1_s (E0 : ℝ) (al : ℕ → ℝ) (b : ℝ) (Sx : Option Mat) :
    calc_cls_core E0 (.v 1 al) (.s b) Sx =
      if |al 0| < DELTA_MAX E0 then
        ((.v 1 (fun _ => (0:ℝ)) : Arr),
         (.v 1 (fun _ => (LOGITP0 + |al 0|) / (E0 * (Real.sqrt 2 * |b|))) : Arr))
      else
        (.v 1 (fun _ => if 0 < al 0 then (DELTA_MAX E0 - al 0) / b
                        else (-DELTA_MAX E0 - al 0) / b),
         .v 1 (fun _ => SIGMA_F0 / |b|)) := rfl

theorem cls_core_vn_s (E0 : ℝ) (n : ℕ) (al : ℕ → ℝ) (b : ℝ) (Sx : Option Mat)
    (hn : n ≠ 1) :
    calc_cls_core E0 (.v n al) (.s b) Sx =
      (.v n (fun j =>
          if |al j| < DELTA_MAX E0 then 0
          else if 0 < al j then (DELTA_MAX E0 - al j) / sumVec 1 (fun _ => b)
          else (-DELTA_MAX E0 - al j) / sumVec 1 (fun _ => b)),
       .v n (fun j =>
          if |al j| < DELTA_MAX E0 then
            (LOGITP0 + |al j|) / (Real.sqrt 2 * E0 * |b|)
          else SIGMA_F0 / |b|)) := by
  have hd : detJ (.v n al) (.s b) = n := by
    unfold detJ
    rw [if_pos ⟨rfl, hn⟩]
    rfl
  have hsq : squeeze (.v n al) = .v n al := by
    simp only [squeeze]
    rw [if_neg hn]
  simp only [calc_cls_core, hd, hsq]
  rw [if_neg hn]
  rfl

theorem cls_core_v1_v1 (E0 : ℝ) (al b : ℕ → ℝ) (Sx : Option Mat) :
    calc_cls_core E0 (.v 1 al) (.v 1 b) Sx =
      if |al 0| < DELTA_MAX E0 then
        ((.v 1 (fun _ => (0:ℝ)) : Arr),
         (.v 1 (fun _ => (LOGITP0 + |al 0|) / (E0 * (Real.sqrt 2 * |b 0|))) : Arr))
      else
        (.v 1 (fun _ => if 0 < al 0 then (DELTA_MAX E0 - al 0) / b 0
                        else (-DELTA_MAX E0 - al 0) / b 0),
         .v 1 (fun _ => SIGMA_F0 / |b 0|)) := rfl

theorem cls_core_v1_vD (E0 : ℝ) (al : ℕ → ℝ) (D : ℕ) (b : ℕ → ℝ) (Sx : Option Mat)
    (hD : D ≠ 1) :
    calc_cls_core E0 (.v 1 al) (.v D b) Sx =
      if |al 0| < DELTA_MAX E0 then
        ((.v 1 (fun _ => (0:ℝ)) : Arr),
         (.v 1 (fun _ => (LOGITP0 + |al 0|) /
            (E0 * match Sx with
                  | none => Real.sqrt (2 * sumSq D b)
                  | some S => Real.sqrt (2 * quadForm D b S))) : Arr))
      else
        (.v 1 (fun _ => if 0 < al 0 then (DELTA_MAX E0 - al 0) / sumVec D b
                        else (-DELTA_MAX E0 - al 0) / sumVec D b),
         .v 1 (fun _ => SIGMA_F0 /
            match Sx with
            | none => Real.sqrt (sumSq D b)
            | some S => Real.sqrt (quadForm D b S))) := by
  have hsq : squeeze (.v D b) = .v D b := by
    simp only [squeeze]
    rw [if_neg hD]
  simp only [calc_cls_core, hsq]
  cases Sx <;> rfl

theorem cls_core_vn_v (E0 : ℝ) (n Db : ℕ) (al b : ℕ → ℝ) (Sx : Option Mat)
    (hn : n ≠ 1) :
    calc_cls_core E0 (.v n al) (.v Db b) Sx =
      (.v n (fun j =>
          if |al j| < DELTA_MAX E0 then 0
          else if 0 < al j then (DELTA_MAX E0 - al j) / sumVec Db b
          else (-DELTA_MAX E0 - al j) / sumVec Db b),
       .v n (fun j =>
          if |al j| < DELTA_MAX E0 then
            (LOGITP0 + |al j|) / (Real.sqrt 2 * E0 *
              (if Db ≠ 1 then
                 (match Sx with
                  | none => Real.sqrt (sumSq Db b)
                  | some S => Real.sqrt (quadForm Db b S))
               else |b 0|))
          else SIGMA_F0 /
              (if Db ≠ 1 then
                 (match Sx with
                  | none => Real.sqrt (sumSq Db b)
                  | some S => Real.sqrt (quadForm Db b S))
               else |b 0|))) := by
  have hd : detJ (.v n al) (.v Db b) = n := by
    unfold detJ
    rw [if_pos ⟨rfl, hn⟩]
    rfl
  have hsq : squeeze (.v n al) = .v n al := by
    simp only [squeeze]
    rw [if_neg hn]
  simp only [calc_cls_core, hd, hsq]
  rw [if_neg hn]
  cases Sx <;> rfl

theorem cls_core_v1_m11 (E0 : ℝ) (al : ℕ → ℝ) (x : ℕ → ℕ → ℝ) (Sx : Option Mat) :
    calc_cls_core E0 (.v 1 al) (.m 1 1 x) Sx =
      if |al 0| < DELTA_MAX E0 then
        ((.v 1 (fun _ => (0:ℝ)) : Arr),
         (.v 1 (fun _ => (LOGITP0 + |al 0|) / (E0 * (Real.sqrt 2 * |x 0 0|))) : Arr))
      else
        (.v 1 (fun _ => if 0 < al 0 then (DELTA_MAX E0 - al 0) / x 0 0
                        else (-DELTA_MAX E0 - al 0) / x 0 0),
         .v 1 (fun _ => SIGMA_F0 / |x 0 0|)) := rfl

theorem cls_core_v1_m1D (E0 : ℝ) (al : ℕ → ℝ) (D : ℕ) (x : ℕ → ℕ → ℝ)
    (Sx : Option Mat) (hD : D ≠ 1) :
    calc_cls_core E0 (.v 1 al) (.m 1 D x) Sx =
      if |al 0| < DELTA_MAX E0 then
        ((.v 1 (fun _ => (0:ℝ)) : Arr),
         (.v 1 (fun _ => (LOGITP0 + |al 0|) /
            (E0 * match Sx with
                  | none => Real.sqrt (2 * sumSq D (fun k => x 0 k))
                  | some S => Real.sqrt (2 * quadForm D (fun k => x 0 k) S))) : Arr))
      else
        (.v 1 (fun _ => if 0 < al 0 then (DELTA_MAX E0 - al 0) / sumVec D (fun k => x 0 k)
                        else (-DELTA_MAX E0 - al 0) / sumVec D (fun k => x 0 k)),
         .v 1 (fun _ => SIGMA_F0 /
            match Sx with
            | none => Real.sqrt (sumSq D (fun k => x 0 k))
            | some S => Real.sqrt (quadForm D (fun k => x 0 k) S))) := by
  have hsq : squeeze (.m 1 D x) = .v D (fun k => x 0 k) := by
    simp only [squeeze]
    rw [if_pos trivial, if_neg hD]
  simp only [calc_cls_core, hsq]
  cases Sx <;> rfl

theorem cls_core_v1_mJ (E0 : ℝ) (al : ℕ → ℝ) (J D : ℕ) (x : ℕ → ℕ → ℝ)
    (Sx : Option Mat) (hJ : J ≠ 1) :
    calc_cls_core E0 (.v 1 al) (.m J D x) Sx =
      if |al 0| < DELTA_MAX E0 then
        ((.v J (fun _ => (0:ℝ)) : Arr),
         (.v J (fun j => (LOGITP0 + |al 0|) /
            ((if D ≠ 1 then
                (fun j => Real.sqrt ((match Sx with
                   | none => sumSq D (x j)
                   | some S => quadForm D (x j) S) * 2))
              else fun j => Real.sqrt 2 * |x j 0|) j * E0)) : Arr))
      else
        (.v J (fun j => if 0 < al 0 then (DELTA_MAX E0 - al 0) / sumVec D (x j)
                        else (-DELTA_MAX E0 - al 0) / sumVec D (x j)),
         .v J (fun j => SIGMA_F0 /
            (if D ≠ 1 then
                (fun j => Real.sqrt (match Sx with
                   | none => sumSq D (x j)
                   | some S => quadForm D (x j) S))
              else fun j => |x j 0|) j)) := by
  have hd : detJ (.v 1 al) (.m J D x) = J := by
    unfold detJ
    rw [if_neg (by simp [Arr.ndim, Arr.leadDim]), if_pos ⟨rfl, hJ⟩]
    rfl
  have hbm : betaMulti (.m J D x) = .m J D x := by
    simp only [betaMulti]
    rw [if_neg hJ]
  simp only [calc_cls_core, hd, hbm]
  rw [if_neg hJ]
  cases Sx <;> rfl

theorem cls_core_vn_m1 (E0 : ℝ) (n D : ℕ) (al : ℕ → ℝ) (x : ℕ → ℕ → ℝ)
    (Sx : Option Mat) (hn : n ≠ 1) :
    calc_cls_core E0 (.v n al) (.m 1 D x) Sx =
      (.v n (fun j =>
          if |al j| < DELTA_MAX E0 then 0
          else if 0 < al j then (DELTA_MAX E0 - al j) / sumVec D (fun k => x 0 k)
          else (-DELTA_MAX E0 - al j) / sumVec D (fun k => x 0 k)),
       .v n (fun j =>
          if |al j| < DELTA_MAX E0 then
            (LOGITP0 + |al j|) / (Real.sqrt 2 * E0 *
              (if D ≠ 1 then
                 (match Sx with
                  | none => Real.sqrt (sumSq D (fun k => x 0 k))
                  | some S => Real.sqrt (quadForm D (fun k => x 0 k) S))
               else |x 0 0|))
          else SIGMA_F0 /
              (if D ≠ 1 then
                 (match Sx with
                  | none => Real.sqrt (sumSq D (fun k => x 0 k))
                  | some S => Real.sqrt (quadForm D (fun k => x 0 k) S))
               else |x 0 0|))) := by
  have hd : detJ (.v n al) (.m 1 D x) = n := by
    unfold detJ
    rw [if_pos ⟨rfl, hn⟩]
    rfl
  have hsq : squeeze (.v n al) = .v n al := by
    simp only [squeeze]
    rw [if_neg hn]
  have hbm : betaMulti (.m 1 D x) = .v D (fun k => x 0 k) := by
    simp only [betaMulti]
    rw [if_pos trivial]
  simp only [calc_cls_core, hd, hsq, hbm]
  rw [if_neg hn]

theorem cls_core_vn_mJ (E0 : ℝ) (n J D : ℕ) (al : ℕ → ℝ) (x : ℕ → ℕ → ℝ)
    (Sx : Option Mat) (hn : n ≠ 1) (hJ : J ≠ 1) :
    calc_cls_core E0 (.v n al) (.m J D x) Sx =
      (.v n (fun j =>
          if |al j| < DELTA_MAX E0 then 0
          else if 0 < al j then (DELTA_MAX E0 - al j) / sumVec D (x j)
          else (-DELTA_MAX E0 - al j) / sumVec D (x j)),
       .v n (fun j =>
          if |al j| < DELTA_MAX E0 then
            (LOGITP0 + |al j|) / (Real.sqrt 2 * E0 *
              (if D ≠ 1 then
                (fun j => match Sx with
                   | none => Real.sqrt (sumSq D (x j))
                   | some S => Real.sqrt (quadForm D (x j) S))
                else fun j => |x j 0|) j)
          else SIGMA_F0 /
              (if D ≠ 1 then
                (fun j => match Sx with
                   | none => Real.sqrt (sumSq D (x j))
                   | some S => Real.sqrt (quadForm D (x j) S))
                else fun j => |x j 0|) j)) := by
  have hd : detJ (.v n al) (.m J D x) = n := by
    unfold detJ
    rw [if_pos ⟨rfl, hn⟩]
    rfl
  have hsq : squeeze (.v n al) = .v n al := by
    simp only [squeeze]
    rw [if_neg hn]
  have hbm : betaMulti (.m J D x) = .m J D x := by
    simp only [betaMulti]
    rw [if_neg hJ]
  simp only [calc_cls_core, hd, hsq, hbm]
  rw [if_neg hn]

theorem cls_multigroup_consistency_witness :
    ∃ mu sig : ℝ,
      calc_input_param_classification 0 (.s 0) (.s 1) none = .ok (.s mu, .s sig) ∧
      calc_input_param_classification 0 (.v 2 (fun _ => 0)) (.m 2 1 (fun _ _ => 1)) none =
        .ok (.v 2 (fun _ => mu), .v 2 (fun _ => sig)) :=
  (cls_multigroup_consistency 0 0 2 (by norm_num)).1 1

/- ### C9: group count determination and output shape -/

/-- Modelled from the amended C9 claim: the expected output shape.  The
group count is the length of alpha when alpha is a one-dimensional array
of length different from 1 (the source tests `shape[0] != 1`, not
`> 1`), else the leading dimension of beta when beta is two-dimensional
with leading dimension different from 1, else 1; for J = 1 the outputs
are scalar-shaped exactly when alpha has rank 0 and beta has rank at
most 1, and length-1 arrays otherwise. -/
def claimedShape (alpha beta : Arr) : List ℕ :=
  if alpha.ndim = 1 ∧ alpha.leadDim ≠ 1 then [alpha.leadDim]
  else if beta.ndim = 2 ∧ beta.leadDim ≠ 1 then [beta.leadDim]
  else if alpha.ndim = 0 ∧ beta.ndim < 2 then [] else [1]

/-- Counterexample to C9 as stated: with alpha a length-0 vector
(`np.asarray([])`) and scalar beta, the claim prescribes J = 1 (0 does
not exceed 1) and length-1 array outputs, but the code sets
`J = alpha.shape[0] = 0` — the source tests `shape[0] != 1`, not
`> 1` — and returns empty, length-0 arrays. -/
theorem cls_group_count_cex :
    (calc_input_param_classification 0 (.v 0 (fun _ => 0)) (.s 1) none).map
        (fun q => (shapeOf q.1, shapeOf q.2)) = .ok ([0], [0]) ∧
    ([0] : List ℕ) ≠ [1] :=
  ⟨rfl, by decide⟩

/-- C9, amended: whenever the call succeeds, the shapes of the returned
`mu_x` and `sigma_x` are given by `claimedShape`: the group count is
alpha's length when alpha is one-dimensional of length different from 1,
else beta's leading dimension when beta is two-dimensional with leading
dimension different from 1, else 1; and for J = 1 the outputs are plain
scalars exactly when alpha has rank 0 and beta rank at most 1, and
length-1 arrays otherwise. -/
theorem cls_output_shape (E0 : ℝ) (alpha beta : Arr) (Sx : Option Mat)
    (out : Arr × Arr)
    (h : calc_input_param_classification E0 alpha beta Sx = .ok out) :
    shapeOf out.1 = claimedShape alpha beta ∧
    shapeOf out.2 = claimedShape alpha beta := by
  unfold calc_input_param_classification at h
  by_cases h1 : 1 < alpha.ndim ∨ 2 < beta.ndim
  · rw [if_pos h1] at h
    exact absurd h (by simp)
  rw [if_neg h1] at h
  by_cases h2 : Sx.isSome ∧ (beta.ndim = 0 ∨ beta.lastDim ≤ 1)
  · rw [if_pos h2] at h
    exact absurd h (by simp)
  rw [if_neg h2] at h
  have hout : out = calc_cls_core E0 alpha beta Sx := (Except.ok.inj h).symm
  subst hout
  cases alpha with
  | m J D x => exact absurd (Or.inl (by norm_num [Arr.ndim])) h1
  | t A B C x => exact absurd (Or.inl (by norm_num [Arr.ndim])) h1
  | s a =>
      cases beta with
      | t A B C x => exact absurd (Or.inr (by norm_num [Arr.ndim])) h1
      | s b =>
          rw [cls_core_s_s]
          by_cases hc : |a| < DELTA_MAX E0
          · rw [if_pos hc]
            exact ⟨rfl, rfl⟩
          · rw [if_neg hc]
            exact ⟨rfl, rfl⟩
      | v D b =>
          by_cases hD : D = 1
          · subst hD
            rw [cls_core_s_v1]
            by_cases hc : |a| < DELTA_MAX E0
            · rw [if_pos hc]
              exact ⟨rfl, rfl⟩
            · rw [if_neg hc]
              exact ⟨rfl, rfl⟩
          · cases Sx with
            | none =>
                rw [cls_core_s_v_none E0 a D b hD]
                by_cases hc : |a| < DELTA_MAX E0
                · rw [if_pos hc]
                  exact ⟨rfl, rfl⟩
                · rw [if_neg hc]
                  exact ⟨rfl, rfl⟩
            | some S =>
                rw [cls_core_s_v_some E0 a D b S hD]
                by_cases hc : |a| < DELTA_MAX E0
                · rw [if_pos hc]
                  exact ⟨rfl, rfl⟩
                · rw [if_neg hc]
                  exact ⟨rfl, rfl⟩
      | m J D x =>
          by_cases hJ : J = 1
          · subst hJ
            by_cases hD : D = 1
            · subst hD
              rw [cls_core_s_m11]
              by_cases hc : |a| < DELTA_MAX E0
              · rw [if_pos hc]
                exact ⟨rfl, rfl⟩
              · rw [if_neg hc]
                exact ⟨rfl, rfl⟩
            · rw [cls_core_s_m1D E0 a D x Sx hD]
              by_cases hc : |a| < DELTA_MAX E0
              · rw [if_pos hc]
                exact ⟨rfl, rfl⟩
              · rw [if_neg hc]
                exact ⟨rfl, rfl⟩
          · have hcs : claimedShape (.s a) (.m J D x) = [J] := by
              unfold claimedShape
              rw [if_neg (by simp [Arr.ndim]), if_pos ⟨rfl, hJ⟩]
              rfl
            rw [hcs, cls_core_s_mJ E0 a J D x Sx hJ]
            by_cases hc : |a| < DELTA_MAX E0
            · rw [if_pos hc]
              exact ⟨rfl, rfl⟩
            · rw [if_neg hc]
              exact ⟨rfl, rfl⟩
  | v n al =>
      cases beta with
      | t A B C x => exact absurd (Or.inr (by norm_num [Arr.ndim])) h1
      | s b =>
          by_cases hn : n = 1
          · subst hn
            rw [cls_core_v1_s]
            by_cases hc : |al 0| < DELTA_MAX E0
            · rw [if_pos hc]
              exact ⟨rfl, rfl⟩
            · rw [if_neg hc]
              exact ⟨rfl, rfl⟩
          · have hcs : claimedShape (.v n al) (.s b) = [n] := by
              unfold claimedShape
              rw [if_pos ⟨rfl, hn⟩]
              rfl
            rw [hcs, cls_core_vn_s E0 n al b Sx hn]
            exact ⟨rfl, rfl⟩
      | v D b =>
          by_cases hn : n = 1
          · subst hn
            by_cases hD : D = 1
            · subst hD
              rw [cls_core_v1_v1]
              by_cases hc : |al 0| < DELTA_MAX E0
              · rw [if_pos hc]
                exact ⟨rfl, rfl⟩
              · rw [if_neg hc]
                exact ⟨rfl, rfl⟩
            · rw [cls_core_v1_vD E0 al D b Sx hD]
              by_cases hc : |al 0| < DELTA_MAX E0
              · rw [if_pos hc]
                exact ⟨rfl, rfl⟩
              · rw [if_neg hc]
                exact ⟨rfl, rfl⟩
          · have hcs : claimedShape (.v n al) (.v D b) = [n] := by
              unfold claimedShape
              rw [if_pos ⟨rfl, hn⟩]
              rfl
            rw [hcs, cls_core_vn_v E0 n D al b Sx hn]
            exact ⟨rfl, rfl⟩
      | m J D x =>
          by_cases hn : n = 1
          · subst hn
            by_cases hJ : J = 1
            · subst hJ
              by_cases hD : D = 1
              · subst hD
                rw [cls_core_v1_m11]
                by_cases hc : |al 0| < DELTA_MAX E0
                · rw [if_pos hc]
                  exact ⟨rfl, rfl⟩
                · rw [if_neg hc]
                  exact ⟨rfl, rfl⟩
              · rw [cls_core_v1_m1D E0 al D x Sx hD]
                by_cases hc : |al 0| < DELTA_MAX E0
                · rw [if_pos hc]
                  exact ⟨rfl, rfl⟩
                · rw [if_neg hc]
                  exact ⟨rfl, rfl⟩
            · have hcs : claimedShape (.v 1 al) (.m J D x) = [J] := by
                unfold claimedShape
                rw [if_neg (by simp [Arr.ndim, Arr.leadDim]), if_pos ⟨rfl, hJ⟩]
                rfl
              rw [hcs, cls_core_v1_mJ E0 al J D x Sx hJ]
              by_cases hc : |al 0| < DELTA_MAX E0
              · rw [if_pos hc]
                exact ⟨rfl, rfl⟩
              · rw [if_neg hc]
                exact ⟨rfl, rfl⟩
          · have hcs : claimedShape (.v n al) (.m J D x) = [n] := by
              unfold claimedShape
              rw [if_pos ⟨rfl, hn⟩]
              rfl
            by_cases hJ : J = 1
            · subst hJ
              rw [hcs, cls_core_vn_m1 E0 n D al x Sx hn]
              exact ⟨rfl, rfl⟩
            · rw [hcs, cls_core_vn_mJ E0 n J D al x Sx hn hJ]
              exact ⟨rfl, rfl⟩

theorem cls_output_shape_witness :
    shapeOf (calc_cls_core 0 (.s 1) (.s 1) none).1 = claimedShape (.s 1) (.s 1) ∧
    shapeOf (calc_cls_core 0 (.s 1) (.s 1) none).2 = claimedShape (.s 1) (.s 1) :=
  cls_output_shape 0 (.s 1) (.s 1) none _ rfl

end EP
